import Mathlib

set_option maxRecDepth 20000

/-!
Verification development for the `pyper` command-line pipeline tool.

The repository ships `src/extra_symbols.py` (the default-tier symbol table
builder, embedded below as `Pyper.addLib` / `Pyper.buildSymbols`) and
`src/tests.py` (end-to-end tests of the `./py` executable).  The executor
itself (`./py`) is not part of the sources available here, so the pipeline
engine is modelled from the specification (stage compilation metadata, eager
evaluation of binding-independent stages, call-vs-value inference, the
no-result passthrough, aggregate/flatten operators, boolean filtering, and
the error-visibility policy), with every observable pinned to the behavior
the tests in `src/tests.py` assert (in particular: error messages are written
to standard output, and the standard-error channel stays empty).
-/

namespace Pyper

/-- Modelled from the spec: the builtin callables that the claims exercise.
The symbol table seeds bare names (`int`, `range`, `sum`, `sorted`) and the
in-place list `sort` reachable as a bare name; `sort` is the specification's
example of an in-place mutating operation that returns the no-result marker. -/
inductive Fn
  | fInt
  | fRange
  | fSum
  | fSorted
  | fSort

/-- Modelled from the spec: runtime values flowing through the pipeline.
`vNone` is the host language's absence-of-value marker.  `vRat num den` stands
for the exact value of a non-integral true division; no claim evaluates or
prints such a value (host floating point is out of scope), it only keeps the
division operator total on nonzero divisors. -/
inductive Val
  | vInt (n : Int)
  | vBool (b : Bool)
  | vStr (s : String)
  | vList (elems : List Val)
  | vFun (f : Fn)
  | vRat (num den : Int)
  | vNone

/-- Modelled from the spec: the evaluation-error taxonomy the claims touch
(resolution errors, arithmetic errors, conversion errors, flatten-target
errors). -/
inductive PyErr
  | nameError (n : String)
  | zeroDivision
  | typeError (op : String)
  | intParse (s : String)
  | notIterable

/-- Modelled from the spec: the human-readable message of an evaluation
error, matching the exact message bytes asserted by `src/tests.py`. -/
def PyErr.msg : PyErr → String
  | .nameError n => "name \x27" ++ n ++ "\x27 is not defined"
  | .zeroDivision => "division by zero"
  | .typeError op => "unsupported operand type for " ++ op
  | .intParse s => "invalid literal for int() with base 10: \x27" ++ s ++ "\x27"
  | .notIterable => "object is not iterable"

mutual

/-- Modelled from the spec: the textual representation of a value inside a
container (quotes around strings, `True`/`False` for booleans). -/
def pyRepr : Val → String
  | .vInt n => toString n
  | .vBool b => if b then "True" else "False"
  | .vStr s => "\x27" ++ s ++ "\x27"
  | .vList l => "[" ++ String.intercalate ", " (pyReprList l) ++ "]"
  | .vFun _ => "<built-in function>"
  | .vRat n d => toString n ++ "/" ++ toString d
  | .vNone => "None"

/-- Representations of the elements of a list value, in order. -/
def pyReprList : List Val → List String
  | [] => []
  | v :: vs => pyRepr v :: pyReprList vs

end

/-- Modelled from the spec: the textual representation used when printing a
final value as an output line (top-level strings print without quotes). -/
def pyStr : Val → String
  | .vStr s => s
  | v => pyRepr v

/-- Insert an integer into an already sorted list, keeping it sorted. -/
def insertSorted (n : Int) : List Int → List Int
  | [] => [n]
  | m :: ms => if n ≤ m then n :: m :: ms else m :: insertSorted n ms

/-- Sort a list of integers into nondecreasing order (insertion sort). -/
def sortInts : List Int → List Int
  | [] => []
  | n :: ns => insertSorted n (sortInts ns)

/-- View a list of values as a list of integers, when every element is one. -/
def asInts : List Val → Option (List Int)
  | [] => some []
  | .vInt n :: vs => (asInts vs).map (fun ns => n :: ns)
  | _ :: _ => none

/-- The numeric value of one decimal digit character, if it is one. -/
def digitVal (c : Char) : Option Nat :=
  if c.isDigit then some (c.toNat - 48) else none

/-- Accumulate the decimal value of a digit sequence; any non-digit makes the
whole sequence invalid. -/
def parseDigitsAux : List Char → Nat → Option Nat
  | [], acc => some acc
  | c :: cs, acc =>
      match digitVal c with
      | some d => parseDigitsAux cs (acc * 10 + d)
      | none => none

/-- The decimal value of a nonempty digit sequence. -/
def parseDigits : List Char → Option Nat
  | [] => none
  | cs => parseDigitsAux cs 0

/-- Modelled from the spec: the host `int` conversion of a string — an
optional leading sign followed by decimal digits; anything else is a
conversion error. -/
def pyToInt (s : String) : Option Int :=
  match s.data with
  | '-' :: rest => (parseDigits rest).map (fun n => -(n : Int))
  | '+' :: rest => (parseDigits rest).map (fun n => (n : Int))
  | ds => (parseDigits ds).map (fun n => (n : Int))

/-- The private-name test of `src/extra_symbols.py` — in the source,
`name.startswith("_")`, that is: the first character is an underscore. -/
def underscoreFirst (s : String) : Bool :=
  match s.data with
  | c :: _ => c = '_'
  | [] => false

/-- Modelled from the spec: applying a builtin callable to one argument.
The result is the pair (return value, receiver afterwards): for the in-place
`sort` the return value is the no-result marker and the receiver comes back
mutated; every other builtin leaves the receiver untouched. -/
def applyFn : Fn → Val → Except PyErr (Val × Val)
  | .fInt, .vStr s =>
      match pyToInt s with
      | some n => .ok (.vInt n, .vStr s)
      | none => .error (.intParse s)
  | .fInt, .vInt n => .ok (.vInt n, .vInt n)
  | .fInt, .vBool b => .ok (.vInt (if b then 1 else 0), .vBool b)
  | .fInt, _ => .error (.typeError "int")
  | .fRange, .vInt n => .ok (.vList ((List.range n.toNat).map (fun k => .vInt k)), .vInt n)
  | .fRange, _ => .error (.typeError "range")
  | .fSum, .vList l =>
      match asInts l with
      | some ns => .ok (.vInt (ns.foldl (fun a b => a + b) 0), .vList l)
      | none => .error (.typeError "sum")
  | .fSum, _ => .error (.typeError "sum")
  | .fSorted, .vList l =>
      match asInts l with
      | some ns => .ok (.vList ((sortInts ns).map (fun k => .vInt k)), .vList l)
      | none => .error (.typeError "sorted")
  | .fSorted, _ => .error (.typeError "sorted")
  | .fSort, .vList l =>
      match asInts l with
      | some ns => .ok (.vNone, .vList ((sortInts ns).map (fun k => .vInt k)))
      | none => .error (.typeError "sort")
  | .fSort, _ => .error (.typeError "sort")

/-- Modelled from the spec: the compiled form of one raw expression string.
Only the operators exercised by the claims are represented. -/
inductive Expr
  | lit (v : Val)
  | var (n : String)
  | add (a b : Expr)
  | mul (a b : Expr)
  | div (a b : Expr)
  | gt (a b : Expr)

/-- Static free-variable analysis: does the compiled expression reference the
given name anywhere? -/
def Expr.mentions : Expr → String → Bool
  | .lit _, _ => false
  | .var n, m => n == m
  | .add a b, m => a.mentions m || b.mentions m
  | .mul a b, m => a.mentions m || b.mentions m
  | .div a b, m => a.mentions m || b.mentions m
  | .gt a b, m => a.mentions m || b.mentions m

/-- Modelled from the spec: the environment one expression evaluates in — the
run-wide symbol table (builtins plus eagerly assigned names), the per-row
assignment scope, and the per-row bound value (`none` when unbound). -/
structure Env where
  global : List (String × Val)
  rowScope : List (String × Val)
  x : Option Val

/-- Modelled from the spec: name resolution order — per-row assignments, then
the per-row binding name `x`, then the run-wide symbol table; an unknown name
is an undefined-name error. -/
def lookupName (env : Env) (n : String) : Except PyErr Val :=
  match env.rowScope.lookup n with
  | some v => .ok v
  | none =>
      if n == "x" then
        match env.x with
        | some v => .ok v
        | none => .error (.nameError "x")
      else
        match env.global.lookup n with
        | some v => .ok v
        | none => .error (.nameError n)

/-- Modelled from the spec: evaluation of a compiled expression.  `+` adds
integers and concatenates strings, `*` multiplies integers, `>` compares
integers, `/` is true division (division by zero is an evaluation error). -/
def evalExpr (env : Env) : Expr → Except PyErr Val
  | .lit v => .ok v
  | .var n => lookupName env n
  | .add a b =>
      match evalExpr env a, evalExpr env b with
      | .error er, _ => .error er
      | .ok _, .error er => .error er
      | .ok (.vInt m), .ok (.vInt n) => .ok (.vInt (m + n))
      | .ok (.vStr s), .ok (.vStr t) => .ok (.vStr (s ++ t))
      | .ok _, .ok _ => .error (.typeError "+")
  | .mul a b =>
      match evalExpr env a, evalExpr env b with
      | .error er, _ => .error er
      | .ok _, .error er => .error er
      | .ok (.vInt m), .ok (.vInt n) => .ok (.vInt (m * n))
      | .ok _, .ok _ => .error (.typeError "*")
  | .div a b =>
      match evalExpr env a, evalExpr env b with
      | .error er, _ => .error er
      | .ok _, .error er => .error er
      | .ok (.vInt m), .ok (.vInt n) =>
          if n = 0 then .error .zeroDivision else .ok (.vRat m n)
      | .ok _, .ok _ => .error (.typeError "/")
  | .gt a b =>
      match evalExpr env a, evalExpr env b with
      | .error er, _ => .error er
      | .ok _, .error er => .error er
      | .ok (.vInt m), .ok (.vInt n) => .ok (.vBool (decide (n < m)))
      | .ok _, .ok _ => .error (.typeError ">")

/-- Modelled from the spec: a compiled stage descriptor — plain expression,
named assignment, aggregate operator, or flatten operator. -/
inductive Stage
  | expr (e : Expr)
  | assign (n : String) (e : Expr)
  | aggregate
  | flatten

/-- The assignment targets of a stage sequence. -/
def targetsOf (stages : List Stage) : List String :=
  stages.filterMap (fun s =>
    match s with
    | .assign n _ => some n
    | _ => none)

/-- Modelled from the spec: a stage expression is evaluated eagerly, once
before row iteration, exactly when it references neither the per-row binding
name nor any name assigned by a stage of the sequence (so a read of a name
some stage assigns is deferred to row time, as `src/tests.py` requires in
`test_assignment_overwrite`). -/
def eagerExpr (tg : List String) (e : Expr) : Bool :=
  !(e.mentions "x") && !(tg.any (fun n => e.mentions n))

/-- Modelled from the spec: the per-stage record of the eager pass — the
stage was deferred to row time, its value was computed once and cached, or it
was an assignment already performed into the run-wide table. -/
inductive Prep
  | deferredP
  | cachedP (v : Val)
  | assignedP

/-- Bind a name in an association-list scope, replacing an existing binding
of the same name and appending otherwise. -/
def scopeSet (s : List (String × Val)) (n : String) (v : Val) : List (String × Val) :=
  match s with
  | [] => [(n, v)]
  | (m, w) :: rest => if m = n then (n, v) :: rest else (m, w) :: scopeSet rest n v

/-- Modelled from the spec: the default-tier names the claims exercise,
bound to the corresponding builtin callables. -/
def defaultGlobals : List (String × Val) :=
  [("int", .vFun .fInt), ("range", .vFun .fRange), ("sum", .vFun .fSum),
   ("sorted", .vFun .fSorted), ("sort", .vFun .fSort)]

/-- Modelled from the spec: the eager pass over the stage sequence, ahead of
row iteration.  Binding-independent expressions are evaluated once and
cached; binding-independent assignments are performed once into the run-wide
table; everything else is deferred.  An error here aborts the run before any
row is processed. -/
def eagerWalk (tg : List String) :
    List Stage → List (String × Val) →
    Except PyErr (List (String × Val) × List (Stage × Prep))
  | [], g => .ok (g, [])
  | .expr e :: rest, g =>
      if eagerExpr tg e then
        match evalExpr ⟨g, [], none⟩ e with
        | .error er => .error er
        | .ok v =>
            match eagerWalk tg rest g with
            | .error er => .error er
            | .ok (g2, sp) => .ok (g2, (.expr e, .cachedP v) :: sp)
      else
        match eagerWalk tg rest g with
        | .error er => .error er
        | .ok (g2, sp) => .ok (g2, (.expr e, .deferredP) :: sp)
  | .assign n e :: rest, g =>
      if eagerExpr tg e then
        match evalExpr ⟨g, [], none⟩ e with
        | .error er => .error er
        | .ok v =>
            match eagerWalk tg rest (scopeSet g n v) with
            | .error er => .error er
            | .ok (g2, sp) => .ok (g2, (.assign n e, .assignedP) :: sp)
      else
        match eagerWalk tg rest g with
        | .error er => .error er
        | .ok (g2, sp) => .ok (g2, (.assign n e, .deferredP) :: sp)
  | .aggregate :: rest, g =>
      match eagerWalk tg rest g with
      | .error er => .error er
      | .ok (g2, sp) => .ok (g2, (.aggregate, .deferredP) :: sp)
  | .flatten :: rest, g =>
      match eagerWalk tg rest g with
      | .error er => .error er
      | .ok (g2, sp) => .ok (g2, (.flatten, .deferredP) :: sp)

/-- Modelled from the spec: the run-wide configuration the row executor
reads — the symbol table after the eager pass and the two reporter flags. -/
structure RowEnv where
  global : List (String × Val)
  showErr : Bool
  showBool : Bool

/-- Modelled from the spec: the executor state while one row (or the single
synthetic calculator row) walks the stage sequence: the bound value, the
value the pipeline held before the most recent value-producing stage, the
per-row assignment scope, the remaining input rows, the two output channels
(standard output and standard error), and the failure flag. -/
structure RowState where
  x : Option Val
  prev : Option Val
  rowScope : List (String × Val)
  rows : List String
  out : List String
  err : List String
  failed : Bool

/-- Modelled from the spec, pinned by `src/tests.py`: reporting an
evaluation error marks the run failed and, when `show_error` is enabled,
prints the message as one line on standard output (the tests assert the
message bytes on stdout and an empty stderr). -/
def reportErr (env : RowEnv) (st : RowState) (er : PyErr) : RowState :=
  { st with failed := true,
            out := if env.showErr then st.out ++ [er.msg] else st.out }

/-- Modelled from the spec: the reporter's handling of a row's final bound
value — booleans print literally under `show_bool` and otherwise act as a
filter that reprints the pre-stage value on true; other values print their
textual representation; an unbound value prints nothing. -/
def finishRow (env : RowEnv) (st : RowState) : RowState :=
  match st.x with
  | none => st
  | some (.vBool b) =>
      if env.showBool then
        { st with out := st.out ++ [pyStr (.vBool b)] }
      else if b then
        match st.prev with
        | some pv => { st with out := st.out ++ [pyStr pv] }
        | none => st
      else st
  | some v => { st with out := st.out ++ [pyStr v] }

/-- Modelled from the spec: the value one expression stage produces — the
eagerly cached value when the eager pass computed one, otherwise a fresh
evaluation in the current environment. -/
def stageVal (g : List (String × Val)) (sc : List (String × Val)) (x : Option Val)
    (e : Expr) (p : Prep) : Except PyErr Val :=
  match p with
  | .cachedP v => .ok v
  | _ => evalExpr ⟨g, sc, x⟩ e

/-- Modelled from the spec: call-vs-value inference.  When the stage does not
reference the bound value, its result is callable and a bound value exists,
the result is invoked with the bound value as sole argument; a no-result
return passes the receiver through.  Otherwise the result itself becomes the
new bound value, except that a no-result value reverts to the pre-stage
bound value. -/
def applyResult (refs : Bool) (v : Val) (x : Option Val) : Except PyErr (Option Val) :=
  match refs, v, x with
  | false, .vFun f, some xv =>
      match applyFn f xv with
      | .error er => .error er
      | .ok (ret, recv) =>
          .ok (some (match ret with | .vNone => recv | r => r))
  | _, .vNone, _ => .ok x
  | _, w, _ => .ok (some w)

/-- Modelled from the spec: re-application of the stages preceding an
aggregate to one freshly pulled row, to compute that row's element of the
collected sequence.  Assignments live in a scope private to this
re-application; the aggregate and flatten operators cannot meaningfully recur
here and pass through. -/
def runPre (env : RowEnv) :
    List (Stage × Prep) → Option Val → List (String × Val) → Except PyErr (Option Val)
  | [], x, _ => .ok x
  | (.expr e, p) :: rest, x, sc =>
      match stageVal env.global sc x e p with
      | .error er => .error er
      | .ok v =>
          match applyResult (e.mentions "x") v x with
          | .error er => .error er
          | .ok x2 => runPre env rest x2 sc
  | (.assign _ _, .assignedP) :: rest, x, sc => runPre env rest x sc
  | (.assign n e, _) :: rest, x, sc =>
      match evalExpr ⟨env.global, sc, x⟩ e with
      | .error er => .error er
      | .ok v => runPre env rest x (scopeSet sc n v)
  | (.aggregate, _) :: rest, x, sc => runPre env rest x sc
  | (.flatten, _) :: rest, x, sc => runPre env rest x sc

/-- Modelled from the spec: exhaustive consumption of the remaining rows by
an aggregate stage — each row's element is computed by re-applying the
preceding stages to a fresh bound value from that row, in row order; a row
whose re-application fails contributes no element and is reported per the
error policy. -/
def collectElems (env : RowEnv) (pre : List (Stage × Prep)) :
    List String → RowState → List Val × RowState
  | [], st => ([], st)
  | r :: rs, st =>
      match runPre env pre (some (.vStr r)) [] with
      | .ok (some v) =>
          match collectElems env pre rs st with
          | (es, st2) => (v :: es, st2)
      | .ok none => collectElems env pre rs st
      | .error er => collectElems env pre rs (reportErr env st er)

/-- Modelled from the spec: the iterable view of a value (lists iterate over
their elements, strings over their characters). -/
def pyIter : Val → Option (List Val)
  | .vList l => some l
  | .vStr s => some (s.data.map (fun c => .vStr c.toString))
  | _ => none

/-- Modelled from the spec: the core row walk.  The first list is the
already-processed prefix in reverse (consulted by an aggregate stage), the
second the stages still to run.  An expression stage updates the bound value
by call-vs-value inference; an assignment stage updates only the per-row
scope (eagerly performed assignments are skipped); an aggregate collects the
current element and the elements of all remaining rows into one sequence and
continues once with it on a fresh synthetic row; a flatten runs the remaining
stages once per element of the bound value, and over an empty or absent value
emits nothing and is not an error.  An error reports and abandons the row.
The fuel argument only drives termination; any fuel above the length of the
remaining stage list is enough and the executor always supplies that much. -/
def runStages (env : RowEnv) :
    Nat → List (Stage × Prep) → List (Stage × Prep) → RowState → RowState
  | 0, _, _, st => st
  | Nat.succ _, _, [], st => finishRow env st
  | Nat.succ f, done, (.expr e, p) :: rest, st =>
      match stageVal env.global st.rowScope st.x e p with
      | .error er => reportErr env st er
      | .ok v =>
          match applyResult (e.mentions "x") v st.x with
          | .error er => reportErr env st er
          | .ok x2 =>
              runStages env f ((.expr e, p) :: done) rest
                { st with prev := st.x, x := x2 }
  | Nat.succ f, done, (.assign n e, .assignedP) :: rest, st =>
      runStages env f ((.assign n e, .assignedP) :: done) rest st
  | Nat.succ f, done, (.assign n e, p) :: rest, st =>
      match evalExpr ⟨env.global, st.rowScope, st.x⟩ e with
      | .error er => reportErr env st er
      | .ok v =>
          runStages env f ((.assign n e, p) :: done) rest
            { st with rowScope := scopeSet st.rowScope n v }
  | Nat.succ f, done, (.aggregate, p) :: rest, st =>
      match collectElems env done.reverse st.rows st with
      | (es, st2) =>
          runStages env f ((.aggregate, p) :: done) rest
            { st2 with
                x := some (.vList ((match st.x with
                                    | some v => [v]
                                    | none => []) ++ es)),
                prev := st.x, rowScope := [], rows := [] }
  | Nat.succ f, done, (.flatten, p) :: rest, st =>
      match st.x with
      | none => st
      | some v =>
          match pyIter v with
          | none => reportErr env st .notIterable
          | some elems =>
              elems.foldl
                (fun stAcc el =>
                  runStages env f ((.flatten, p) :: done) rest
                    { stAcc with x := some el, prev := st.x })
                st

/-- The cross-row accumulator: the two output channels and the failure flag. -/
structure Acc where
  out : List String
  err : List String
  failed : Bool

/-- Modelled from the spec: the row loop — rows are processed strictly in
order, each starting from a fresh bound value and a fresh per-row scope, and
an aggregate inside a row consumes the remaining rows.  The fuel argument
only drives termination; the initial row count plus one is always enough
because every iteration consumes at least the head row. -/
def rowLoop (env : RowEnv) (sp : List (Stage × Prep)) :
    Nat → List String → Acc → Acc
  | 0, _, acc => acc
  | Nat.succ _, [], acc => acc
  | Nat.succ f, r :: rest, acc =>
      match runStages env (sp.length + 1) [] sp
        { x := some (.vStr r), prev := none, rowScope := [], rows := rest,
          out := acc.out, err := acc.err, failed := acc.failed } with
      | stEnd => rowLoop env sp f stEnd.rows ⟨stEnd.out, stEnd.err, stEnd.failed⟩

/-- The observable outcome of one run: the lines printed on standard output,
the lines printed on standard error, and whether the run is marked failed
(a failed run exits with a nonzero status). -/
structure Outcome where
  out : List String
  err : List String
  failed : Bool

/-- Modelled from the spec: one whole run.  The eager pass runs first and an
error there fails the run immediately, with no rows processed, printing only
the error message (and only when `show_error` is on).  With piped input every
line is a row; with no piped input the stage sequence runs exactly once as a
calculator with an unbound value. -/
def runProgram (stages : List Stage) (showErr showBool : Bool)
    (input : Option (List String)) : Outcome :=
  match eagerWalk (targetsOf stages) stages defaultGlobals with
  | .error er => ⟨if showErr then [er.msg] else [], [], true⟩
  | .ok (g, sp) =>
      let env : RowEnv := ⟨g, showErr, showBool⟩
      match input with
      | none =>
          match runStages env (sp.length + 1) [] sp
            ⟨none, none, [], [], [], [], false⟩ with
          | stEnd => ⟨stEnd.out, stEnd.err, stEnd.failed⟩
      | some rows =>
          match rowLoop env sp (rows.length + 1) rows ⟨[], [], false⟩ with
          | acc => ⟨acc.out, acc.err, acc.failed⟩

/-- The compiled form of the raw expression string `int`. -/
def stInt : Stage := .expr (.var "int")

/-- The compiled form of the raw expression string `x+5`. -/
def stXplus5 : Stage := .expr (.add (.var "x") (.lit (.vInt 5)))

/-- The compiled form of the raw expression string `x > 4`. -/
def stXgt4 : Stage := .expr (.gt (.var "x") (.lit (.vInt 4)))

/-- The compiled form of the reserved aggregate token `xargs`. -/
def stXargs : Stage := .aggregate

/-- The compiled form of the reserved flatten token `unxargs`. -/
def stUnxargs : Stage := .flatten

/-- The compiled form of the raw expression string `sort`. -/
def stSort : Stage := .expr (.var "sort")

/-- The compiled form of the raw expression string `sorted`. -/
def stSorted : Stage := .expr (.var "sorted")

/-- The compiled form of the raw expression string `5 / 0`. -/
def stDiv50 : Stage := .expr (.div (.lit (.vInt 5)) (.lit (.vInt 0)))

/-- The compiled form of the raw assignment string `a=0`. -/
def stAssignA0 : Stage := .assign "a" (.lit (.vInt 0))

/-- The compiled form of the raw assignment string `b=x`. -/
def stAssignBX : Stage := .assign "b" (.var "x")

/-- The compiled form of the raw assignment string `a=x`. -/
def stAssignAX : Stage := .assign "a" (.var "x")

/-- The compiled form of the raw assignment string `k=1000`. -/
def stAssignK : Stage := .assign "k" (.lit (.vInt 1000))

/-- The compiled form of the raw expression string `1`. -/
def stOne : Stage := .expr (.lit (.vInt 1))

/-- The compiled form of the raw expression string `a`. -/
def stVarA : Stage := .expr (.var "a")

/-- The compiled form of the raw expression string `b`. -/
def stVarB : Stage := .expr (.var "b")

/-- The compiled form of the raw expression string `a*x`. -/
def stAmulX : Stage := .expr (.mul (.var "a") (.var "x"))

/-- The compiled form of the raw expression string `x*k`. -/
def stXmulK : Stage := .expr (.mul (.var "x") (.var "k"))

/-- An abstract top-level attribute of a utility library, as seen by the
symbol-table loop of `src/extra_symbols.py`: the loop only inspects whether
the attribute value is a module (`inspect.ismodule`); `tag` is an opaque
identity for the value. -/
structure PyAttr where
  isModule : Bool
  tag : Nat

/-- Embedding of the inner loop of `src/extra_symbols.py` (lines 13-22) for
one library: walk the library's top-level attributes in order, skip names
starting with an underscore, skip module-valued attributes, skip a name whose
marker-prefixed key is already present, and otherwise register the attribute
under the key `"_" ++ name`. -/
def addLib {α : Type} (isMod : α → Bool) :
    List (String × α) → List (String × α) → List (String × α)
  | syms, [] => syms
  | syms, p :: rest =>
      if underscoreFirst p.1 then addLib isMod syms rest
      else if isMod p.2 then addLib isMod syms rest
      else match syms.lookup ("_" ++ p.1) with
        | some _ => addLib isMod syms rest
        | none => addLib isMod (syms ++ [("_" ++ p.1, p.2)]) rest

/-- Embedding of the outer loop of `src/extra_symbols.py`: starting from an
empty table, process the fixed ordered list of libraries with `addLib`. -/
def buildSymbols {α : Type} (isMod : α → Bool) (libs : List (List (String × α))) :
    List (String × α) :=
  libs.foldl (addLib isMod) []

/-- Left-biased choice on options (the first defined value wins). -/
def oor {α : Type} : Option α → Option α → Option α
  | some a, _ => some a
  | none, b => b

/-- An attribute entry the loop of `src/extra_symbols.py` registers: its name
is not private and its value is not a module. -/
def eligibleAttr {α : Type} (isMod : α → Bool) (p : String × α) : Bool :=
  !underscoreFirst p.1 && !isMod p.2

theorem oor_none_right {α : Type} (a : Option α) : oor a none = a := by
  cases a <;> rfl

theorem oor_assoc {α : Type} (a b c : Option α) :
    oor (oor a b) c = oor a (oor b c) := by
  cases a <;> rfl

theorem oor_map {α β : Type} (f : α → β) (a b : Option α) :
    (oor a b).map f = oor (a.map f) (b.map f) := by
  cases a <;> rfl

theorem lookup_append {α : Type} (l1 l2 : List (String × α)) (k : String) :
    (l1 ++ l2).lookup k = oor (l1.lookup k) (l2.lookup k) := by
  induction l1 with
  | nil => rfl
  | cons hd tl ih =>
      rw [List.cons_append]
      by_cases h : k = hd.1
      · simp [List.lookup, h, oor]
      · simp only [List.lookup, beq_eq_false_iff_ne.mpr h, ih]

theorem find?_oor {α : Type} (q : α → Bool) (l1 l2 : List α) :
    (l1 ++ l2).find? q = oor (l1.find? q) (l2.find? q) := by
  induction l1 with
  | nil => rfl
  | cons hd tl ih =>
      rw [List.cons_append]
      by_cases h : q hd
      · simp [List.find?, h, oor]
      · simp only [List.find?, Bool.not_eq_true] at *
        simp [List.find?_cons_of_neg, h, ih]

theorem addLib_lookup {α : Type} (isMod : α → Bool) (k : String) :
    ∀ (lib syms : List (String × α)),
      (addLib isMod syms lib).lookup k =
        oor (syms.lookup k)
          (((lib.filter (eligibleAttr isMod)).find? (fun p => ("_" ++ p.1) == k)).map
            (fun p => p.2)) := by
  intro lib
  induction lib with
  | nil => intro syms; simp [addLib, oor_none_right]
  | cons p rest ih =>
      intro syms
      by_cases hpriv : underscoreFirst p.1
      · simp [addLib, hpriv, eligibleAttr, ih]
      · by_cases hmod : isMod p.2
        · simp [addLib, hpriv, hmod, eligibleAttr, ih]
        · have helig : eligibleAttr isMod p = true := by
            simp [eligibleAttr, hpriv, hmod]
          rw [List.filter_cons_of_pos helig]
          cases hm : syms.lookup ("_" ++ p.1) with
          | some w =>
              have hstep : addLib isMod syms (p :: rest) = addLib isMod syms rest := by
                simp [addLib, hpriv, hmod, hm]
              rw [hstep, ih syms]
              by_cases hk : ("_" ++ p.1) = k
              · subst hk
                rw [hm]
                simp [List.find?, oor]
              · have hkb : (("_" ++ p.1) == k) = false := beq_eq_false_iff_ne.mpr hk
                simp [List.find?, hkb]
          | none =>
              have hstep : addLib isMod syms (p :: rest) =
                  addLib isMod (syms ++ [("_" ++ p.1, p.2)]) rest := by
                simp [addLib, hpriv, hmod, hm]
              rw [hstep, ih (syms ++ [("_" ++ p.1, p.2)]), lookup_append, oor_assoc]
              by_cases hk : ("_" ++ p.1) = k
              · subst hk
                rw [hm]
                simp [List.find?, List.lookup, oor]
              · have hkb : (("_" ++ p.1) == k) = false := beq_eq_false_iff_ne.mpr hk
                have hsingle : (List.lookup k [("_" ++ p.1, p.2)] : Option α) = none := by
                  simp [List.lookup, beq_eq_false_iff_ne.mpr fun h => hk h.symm]
                rw [hsingle]
                simp [List.find?, hkb, oor]

theorem buildSymbols_lookup {α : Type} (isMod : α → Bool)
    (libs : List (List (String × α))) (k : String) :
    (buildSymbols isMod libs).lookup k =
      ((libs.flatten.filter (eligibleAttr isMod)).find? (fun p => ("_" ++ p.1) == k)).map
        (fun p => p.2) := by
  have main : ∀ (ls : List (List (String × α))) (syms : List (String × α)),
      (ls.foldl (addLib isMod) syms).lookup k =
        oor (syms.lookup k)
          (((ls.flatten.filter (eligibleAttr isMod)).find? (fun p => ("_" ++ p.1) == k)).map
            (fun p => p.2)) := by
    intro ls
    induction ls with
    | nil => intro syms; simp [oor_none_right]
    | cons lib rest ih =>
        intro syms
        rw [List.foldl_cons, ih (addLib isMod syms lib), addLib_lookup, oor_assoc,
          List.flatten_cons, List.filter_append, find?_oor, oor_map]
  have := main libs []
  simpa [buildSymbols, List.lookup, oor] using this

theorem reportErr_err (env : RowEnv) (st : RowState) (er : PyErr) :
    (reportErr env st er).err = st.err := rfl

theorem finishRow_err (env : RowEnv) (st : RowState) :
    (finishRow env st).err = st.err := by
  unfold finishRow
  split
  · rfl
  · split
    · rfl
    · split
      · split <;> rfl
      · rfl
  · rfl

theorem collectElems_err (env : RowEnv) (pre : List (Stage × Prep)) :
    ∀ (rs : List String) (st : RowState), (collectElems env pre rs st).2.err = st.err := by
  intro rs
  induction rs with
  | nil => intro st; rfl
  | cons r rest ih =>
      intro st
      unfold collectElems
      cases h : runPre env pre (some (.vStr r)) [] with
      | error er => simpa [h, reportErr_err] using ih (reportErr env st er)
      | ok xo =>
          cases xo with
          | none => simpa [h] using ih st
          | some v =>
              cases hc : collectElems env pre rest st with
              | mk es st2 =>
                  have h2 := ih st
                  rw [hc] at h2
                  simp only [h, hc]
                  exact h2

theorem foldl_err {α : Type} (g : RowState → α → RowState)
    (h : ∀ (s : RowState) (a : α), (g s a).err = s.err) :
    ∀ (l : List α) (s : RowState), (l.foldl g s).err = s.err := by
  intro l
  induction l with
  | nil => intro s; rfl
  | cons a l ih => intro s; rw [List.foldl_cons, ih, h]

theorem runStages_err (env : RowEnv) :
    ∀ (f : Nat) (done todo : List (Stage × Prep)) (st : RowState),
      (runStages env f done todo st).err = st.err := by
  intro f
  induction f with
  | zero => intro done todo st; rfl
  | succ f ih =>
      intro done todo st
      match todo with
      | [] => exact finishRow_err env st
      | (.expr e, p) :: rest =>
          rw [runStages]
          cases hv : stageVal env.global st.rowScope st.x e p with
          | error er => simp only [hv]; exact reportErr_err env st er
          | ok v =>
              simp only [hv]
              cases ha : applyResult (e.mentions "x") v st.x with
              | error er => simp only [ha]; exact reportErr_err env st er
              | ok x2 => simp only [ha]; exact ih _ _ _
      | (.assign n e, .assignedP) :: rest =>
          rw [runStages]
          exact ih _ _ _
      | (.assign n e, .deferredP) :: rest =>
          rw [runStages]
          · cases hv : evalExpr ⟨env.global, st.rowScope, st.x⟩ e with
            | error er => simp only [hv]; exact reportErr_err env st er
            | ok v => simp only [hv]; exact ih _ _ _
          · intro hcontra; exact Prep.noConfusion hcontra
      | (.assign n e, .cachedP w) :: rest =>
          rw [runStages]
          · cases hv : evalExpr ⟨env.global, st.rowScope, st.x⟩ e with
            | error er => simp only [hv]; exact reportErr_err env st er
            | ok v => simp only [hv]; exact ih _ _ _
          · intro hcontra; exact Prep.noConfusion hcontra
      | (.aggregate, p) :: rest =>
          rw [runStages]
          cases hc : collectElems env done.reverse st.rows st with
          | mk es st2 =>
              have h1 := collectElems_err env done.reverse st.rows st
              rw [hc] at h1
              simp only [hc]
              rw [ih]
              exact h1
      | (.flatten, p) :: rest =>
          rw [runStages]
          cases hx : st.x with
          | none => simp only [hx]
          | some v =>
              simp only [hx]
              cases hi : pyIter v with
              | none => simp only [hi]; exact reportErr_err env st .notIterable
              | some elems =>
                  simp only [hi]
                  exact foldl_err
                    (fun stAcc el => runStages env f ((Stage.flatten, p) :: done) rest
                      { stAcc with x := some el, prev := some v })
                    (fun s a => ih ((Stage.flatten, p) :: done) rest
                      { s with x := some a, prev := some v })
                    elems st

theorem rowLoop_err (env : RowEnv) (sp : List (Stage × Prep)) :
    ∀ (f : Nat) (rows : List String) (acc : Acc),
      (rowLoop env sp f rows acc).err = acc.err := by
  intro f
  induction f with
  | zero => intro rows acc; rfl
  | succ f ih =>
      intro rows acc
      match rows with
      | [] => rfl
      | r :: rest =>
          rw [rowLoop]
          rw [ih]
          exact runStages_err env _ _ _ _

theorem runProgram_err (stages : List Stage) (se sb : Bool)
    (input : Option (List String)) :
    (runProgram stages se sb input).err = [] := by
  unfold runProgram
  cases h : eagerWalk (targetsOf stages) stages defaultGlobals with
  | error er => rfl
  | ok gsp =>
      cases gsp with
      | mk g sp =>
          cases input with
          | none => simpa using runStages_err ⟨g, se, sb⟩ _ _ _ _
          | some rows => simpa using rowLoop_err ⟨g, se, sb⟩ _ _ _ _

theorem scopeSet_lookup (s : List (String × Val)) (n : String) (v : Val) :
    (scopeSet s n v).lookup n = some v := by
  induction s with
  | nil => simp [scopeSet, List.lookup]
  | cons hd rest ih =>
      by_cases h : hd.1 = n
      · simp [scopeSet, h, List.lookup]
      · have : (n == hd.1) = false := beq_eq_false_iff_ne.mpr fun hc => h hc.symm
        simp [scopeSet, h, List.lookup, this, ih]

theorem noneFallback (ret recv : Val) (h : ret ≠ Val.vNone) :
    (match ret with | Val.vNone => recv | r => r) = ret := by
  cases ret <;> first | rfl | exact absurd rfl h

/-- C1: for every row, when an Expression stage's compiled expression does
not reference the per-row binding name (by static free-variable analysis)
and its evaluated result is callable, the executor invokes that result with
the current bound value as its sole argument and the invocation's result
becomes the new bound value; in particular, for stages `["int", "x+5"]` with
the single piped input line `"2"`, the program prints `7`. -/
theorem c1_implicit_call (e : Expr) (f : Fn) (xv ret recv : Val)
    (he : e.mentions "x" = false)
    (happ : applyFn f xv = .ok (ret, recv)) (hret : ret ≠ Val.vNone) :
    applyResult (e.mentions "x") (.vFun f) (some xv) = .ok (some ret)
    ∧ runProgram [stInt, stXplus5] false false (some ["2"]) = ⟨["7"], [], false⟩ := by
  constructor
  · rw [he]
    simp [applyResult, happ, noneFallback ret recv hret]
  · rfl

theorem c1_witness :
    (Expr.var "int").mentions "x" = false
    ∧ applyFn Fn.fInt (.vStr "2") = .ok (.vInt 2, .vStr "2")
    ∧ applyResult ((Expr.var "int").mentions "x") (.vFun .fInt) (some (.vStr "2")) =
        .ok (some (.vInt 2)) :=
  ⟨rfl, rfl,
    (c1_implicit_call (.var "int") .fInt (.vStr "2") (.vInt 2) (.vStr "2") rfl rfl
      (fun h => Val.noConfusion h)).1⟩

/-- C2: when the final value of a row's stage sequence is boolean, with
`show_bool` disabled it acts as a pass/fail filter — the value the pipeline
held immediately before the boolean-producing stage is printed when the
boolean is true and nothing is printed when it is false — while with
`show_bool` enabled the literal boolean text is printed for every row
regardless of the boolean's value; in particular stages `["int", "x > 4"]`
on input lines 5,7,3,4 print `5` then `7` by default, and
`True,True,False,False` with `show_bool` enabled. -/
theorem c2_bool_filter :
    (∀ (env : RowEnv) (st : RowState) (b : Bool), env.showBool = true →
        st.x = some (.vBool b) →
        (finishRow env st).out = st.out ++ [if b then "True" else "False"])
    ∧ (∀ (env : RowEnv) (st : RowState) (pv : Val), env.showBool = false →
        st.x = some (.vBool true) → st.prev = some pv →
        (finishRow env st).out = st.out ++ [pyStr pv])
    ∧ (∀ (env : RowEnv) (st : RowState), env.showBool = false →
        st.x = some (.vBool false) →
        (finishRow env st).out = st.out)
    ∧ runProgram [stInt, stXgt4] false false (some ["5", "7", "3", "4"]) =
        ⟨["5", "7"], [], false⟩
    ∧ runProgram [stInt, stXgt4] false true (some ["5", "7", "3", "4"]) =
        ⟨["True", "True", "False", "False"], [], false⟩ := by
  refine ⟨?_, ?_, ?_, rfl, rfl⟩
  · intro env st b hsb hx
    cases b <;> simp [finishRow, hx, hsb, pyStr, pyRepr]
  · intro env st pv hsb hx hprev
    simp [finishRow, hx, hsb, hprev]
  · intro env st hsb hx
    simp [finishRow, hx, hsb]

theorem c2_witness :
    (⟨[], false, true⟩ : RowEnv).showBool = true
    ∧ (⟨some (.vBool false), none, [], [], ["z"], [], false⟩ : RowState).x =
        some (.vBool false)
    ∧ (finishRow ⟨[], false, true⟩
          ⟨some (.vBool false), none, [], [], ["z"], [], false⟩).out =
        ["z"] ++ [if false then "True" else "False"] :=
  ⟨rfl, rfl,
    c2_bool_filter.1 ⟨[], false, true⟩
      ⟨some (.vBool false), none, [], [], ["z"], [], false⟩ false rfl rfl⟩

/-- C3 counterexample: running `-e` `5 / 0` with no piped input prints the
message `division by zero` on standard output and nothing on standard error
(matching `src/tests.py`, `test_exception`), so the claim that the message
goes to the standard error stream rather than standard output is false. -/
theorem c3_counterexample :
    runProgram [stDiv50] true false none = ⟨["division by zero"], [], true⟩
    ∧ (runProgram [stDiv50] true false none).err ≠ ["division by zero"] := by
  refine ⟨rfl, ?_⟩
  intro hcontra
  have hnil : ([] : List String) = ["division by zero"] := hcontra
  exact List.noConfusion hnil

/-- C3 amended: for every row on which an evaluation error occurs while
`show_error` is enabled, the program prints the error's human-readable
message as one line on standard output (the standard error stream always
stays empty) and continues processing subsequent rows; either way the
overall run is marked failed. -/
theorem c3_errors_on_stdout :
    (∀ (stages : List Stage) (se sb : Bool) (input : Option (List String)),
        (runProgram stages se sb input).err = [])
    ∧ runProgram [stDiv50] true false none = ⟨["division by zero"], [], true⟩
    ∧ runProgram [stInt, stXplus5] true false (some ["foo", "2"]) =
        ⟨["invalid literal for int() with base 10: \x27foo\x27", "7"], [], true⟩ :=
  ⟨runProgram_err, rfl, rfl⟩

/-- C4: whenever an Aggregate stage runs with no rows remaining and no bound
value (the input source supplied no rows at all), the collected sequence is
empty and execution still continues exactly once with that empty ordered
sequence as the bound value; in particular the single stage `xargs` with no
piped input prints `[]` and the run is not marked failed. -/
theorem c4_aggregate_empty (env : RowEnv) (f : Nat) (done rest : List (Stage × Prep))
    (st : RowState) (p : Prep) (hx : st.x = none) (hrows : st.rows = []) :
    runStages env (f + 1) done ((Stage.aggregate, p) :: rest) st =
      runStages env f ((Stage.aggregate, p) :: done) rest
        { st with x := some (.vList []), prev := none, rowScope := [], rows := [] }
    ∧ runProgram [stXargs] false false none = ⟨["[]"], [], false⟩ := by
  constructor
  · rw [runStages, hrows]
    simp [collectElems, hx]
  · rfl

theorem c4_witness :
    (⟨none, none, [], [], [], [], false⟩ : RowState).x = none
    ∧ (⟨none, none, [], [], [], [], false⟩ : RowState).rows = []
    ∧ runStages ⟨defaultGlobals, false, false⟩ 1 [] [(Stage.aggregate, Prep.deferredP)]
        ⟨none, none, [], [], [], [], false⟩ =
      runStages ⟨defaultGlobals, false, false⟩ 0 [(Stage.aggregate, Prep.deferredP)] []
        { (⟨none, none, [], [], [], [], false⟩ : RowState) with
            x := some (.vList []), prev := none, rowScope := [], rows := [] } :=
  ⟨rfl, rfl,
    (c4_aggregate_empty ⟨defaultGlobals, false, false⟩ 0 [] []
      ⟨none, none, [], [], [], [], false⟩ Prep.deferredP rfl rfl).1⟩

/-- C5: a stage that does not reference the per-row binding is evaluated
once, ahead of row iteration, and if that eager evaluation raises an error
the whole run fails immediately with no rows processed and no output lines,
regardless of how many input rows exist; in particular stages
`["5 / 0", "unxargs"]` with no piped input produce no output and a failed
run. -/
theorem c5_eager_error (stages : List Stage) (se sb : Bool) (er : PyErr)
    (h : eagerWalk (targetsOf stages) stages defaultGlobals = .error er) :
    (∀ (input : Option (List String)),
        runProgram stages se sb input = ⟨if se then [er.msg] else [], [], true⟩)
    ∧ runProgram [stDiv50, stUnxargs] false false none = ⟨[], [], true⟩ := by
  constructor
  · intro input
    unfold runProgram
    rw [h]
  · rfl

theorem c5_witness :
    eagerWalk (targetsOf [stDiv50, stUnxargs]) [stDiv50, stUnxargs] defaultGlobals =
      .error .zeroDivision
    ∧ runProgram [stDiv50, stUnxargs] false false (some ["1", "2", "3"]) =
        ⟨[], [], true⟩ :=
  ⟨rfl, (c5_eager_error [stDiv50, stUnxargs] false false .zeroDivision rfl).1
    (some ["1", "2", "3"])⟩

/-- C6: a Flatten stage applied to an empty or absent (unbound) bound value
produces zero emissions and zero printed lines and is not an error — the
executor state passes through unchanged; in particular the single stage
`unxargs` with no piped input prints nothing, writes nothing to standard
error, and the run is not marked failed. -/
theorem c6_flatten_empty (env : RowEnv) (f : Nat) (done rest : List (Stage × Prep))
    (st : RowState) (p : Prep)
    (h : st.x = none ∨ st.x = some (.vList [])) :
    runStages env (f + 1) done ((Stage.flatten, p) :: rest) st = st
    ∧ runProgram [stUnxargs] false false none = ⟨[], [], false⟩ := by
  constructor
  · rcases h with h | h <;> rw [runStages] <;> simp [h, pyIter]
  · rfl

theorem c6_witness :
    ((⟨none, none, [], [], [], [], false⟩ : RowState).x = none
      ∨ (⟨none, none, [], [], [], [], false⟩ : RowState).x = some (.vList []))
    ∧ runStages ⟨defaultGlobals, false, false⟩ 1 [] [(Stage.flatten, Prep.deferredP)]
        ⟨none, none, [], [], [], [], false⟩ =
      ⟨none, none, [], [], [], [], false⟩ :=
  ⟨Or.inl rfl,
    (c6_flatten_empty ⟨defaultGlobals, false, false⟩ 0 [] []
      ⟨none, none, [], [], [], [], false⟩ Prep.deferredP (Or.inl rfl)).1⟩

/-- C7 counterexample: the run `["int", "a=x", "a*x", "a=x", "a"]` on the
single input line `3` succeeds and prints `9` (matching `src/tests.py`,
`test_assignment_overwrite`): the name `a` is written twice during the row
and the second write is the value the final stage reads, so user-assigned
names are not write-once-per-row; a second write to a bound name replaces
the first in the scope. -/
theorem c7_counterexample :
    runProgram [stInt, stAssignAX, stAmulX, stAssignAX, stVarA] false false (some ["3"]) =
      ⟨["9"], [], false⟩
    ∧ scopeSet (scopeSet [] "a" (.vInt 3)) "a" (.vInt 9) = [("a", .vInt 9)] :=
  ⟨rfl, rfl⟩

/-- C7 amended: a user-assigned name may be written any number of times
during a row's stage sequence, the most recent write being the value later
stages read; the bound value is never implicitly carried into the user-name
namespace nor vice versa — an assignment stage changes only the per-row
scope and leaves the bound value unchanged, and an expression stage changes
only the bound value and leaves the scope unchanged. -/
theorem c7_amended :
    (∀ (s : List (String × Val)) (n : String) (v : Val),
        (scopeSet s n v).lookup n = some v)
    ∧ (∀ (env : RowEnv) (f : Nat) (done rest : List (Stage × Prep)) (st : RowState)
        (n : String) (e : Expr) (v : Val),
        evalExpr ⟨env.global, st.rowScope, st.x⟩ e = .ok v →
        runStages env (f + 1) done ((Stage.assign n e, Prep.deferredP) :: rest) st =
          runStages env f ((Stage.assign n e, Prep.deferredP) :: done) rest
            { st with rowScope := scopeSet st.rowScope n v })
    ∧ (∀ (env : RowEnv) (f : Nat) (done rest : List (Stage × Prep)) (st : RowState)
        (e : Expr) (p : Prep) (v : Val) (x2 : Option Val),
        stageVal env.global st.rowScope st.x e p = .ok v →
        applyResult (e.mentions "x") v st.x = .ok x2 →
        runStages env (f + 1) done ((Stage.expr e, p) :: rest) st =
          runStages env f ((Stage.expr e, p) :: done) rest
            { st with prev := st.x, x := x2 })
    ∧ runProgram [stInt, stAssignAX, stAmulX, stAssignAX, stVarA] false false (some ["3"]) =
        ⟨["9"], [], false⟩ := by
  refine ⟨scopeSet_lookup, ?_, ?_, rfl⟩
  · intro env f done rest st n e v hv
    rw [runStages]
    · simp only [hv]
    · intro hcontra; exact Prep.noConfusion hcontra
  · intro env f done rest st e p v x2 hv ha
    rw [runStages]
    simp only [hv, ha]

theorem c7_witness :
    evalExpr ⟨[], [], some (.vInt 3)⟩ (.var "x") = .ok (.vInt 3)
    ∧ runStages ⟨[], false, false⟩ 1 []
        [(Stage.assign "a" (.var "x"), Prep.deferredP)]
        ⟨some (.vInt 3), none, [], [], [], [], false⟩ =
      runStages ⟨[], false, false⟩ 0
        [(Stage.assign "a" (.var "x"), Prep.deferredP)] []
        { (⟨some (.vInt 3), none, [], [], [], [], false⟩ : RowState) with
            rowScope := scopeSet [] "a" (.vInt 3) } :=
  ⟨rfl,
    c7_amended.2.1 ⟨[], false, false⟩ 0 [] []
      ⟨some (.vInt 3), none, [], [], [], [], false⟩ "a" (.var "x") (.vInt 3) rfl⟩

/-- C8 counterexample: the run `-e` `["a=0", "b=x", "1", "xargs", "b"]` on
input lines 5,7,3,4 fails with `name 'b' is not defined` as its only output
line (matching `src/tests.py`, `test_xargs_symbols`): the name `b`, assigned
on every row before the aggregate from the per-row binding, is not defined
during the stages after the Aggregate stage, so per-row assignments do not
remain visible on the synthetic continuation row. -/
theorem c8_counterexample :
    runProgram [stAssignA0, stAssignBX, stOne, stXargs, stVarB] true false
        (some ["5", "7", "3", "4"]) =
      ⟨["name \x27b\x27 is not defined"], [], true⟩ := rfl

/-- C8 amended: names assigned by stages that do not reference the per-row
binding are installed once, ahead of row iteration, and stay visible to
every row and to the stages after an Aggregate stage (the run
`-e` `["a=0", "b=x", "1", "xargs", "a"]` prints `0`); names assigned by
binding-referencing stages are visible to the later stages of the same
row's processing (`["int", "k=1000", "x*k"]` on line 9 prints `9000`, and
`["int", "b=x", "b"]` on line 3 prints `3`), but do not survive into the
synthetic continuation row after an Aggregate. -/
theorem c8_assignment_visibility :
    runProgram [stAssignA0, stAssignBX, stOne, stXargs, stVarA] true false
        (some ["5", "7", "3", "4"]) = ⟨["0"], [], false⟩
    ∧ runProgram [stInt, stAssignK, stXmulK] false false (some ["9"]) =
        ⟨["9000"], [], false⟩
    ∧ runProgram [stInt, stAssignBX, stVarB] false false (some ["3"]) =
        ⟨["3"], [], false⟩ :=
  ⟨rfl, rfl, rfl⟩

/-- C9: an Expression stage whose evaluation yields the no-result marker
leaves the bound value as it was before the stage rather than binding the
marker, and when the marker is returned by an invoked callable the receiver
of the call (as possibly mutated in place) is what passes through; in
particular stages `["int", "xargs", "sort"]` on input lines 5,7,3,4 print
`[3, 4, 5, 7]`. -/
theorem c9_none_passthrough :
    (∀ (refs : Bool) (x : Option Val), applyResult refs Val.vNone x = .ok x)
    ∧ (∀ (f : Fn) (xv recv : Val), applyFn f xv = .ok (Val.vNone, recv) →
        applyResult false (.vFun f) (some xv) = .ok (some recv))
    ∧ runProgram [stInt, stXargs, stSort] false false (some ["5", "7", "3", "4"]) =
        ⟨["[3, 4, 5, 7]"], [], false⟩ := by
  refine ⟨?_, ?_, rfl⟩
  · intro refs x
    cases refs <;> rfl
  · intro f xv recv h
    simp [applyResult, h]

theorem c9_witness :
    applyFn Fn.fSort (.vList [.vInt 2, .vInt 1]) =
      .ok (Val.vNone, .vList [.vInt 1, .vInt 2])
    ∧ applyResult false (.vFun Fn.fSort) (some (.vList [.vInt 2, .vInt 1])) =
        .ok (some (.vList [.vInt 1, .vInt 2])) :=
  ⟨rfl,
    c9_none_passthrough.2.1 Fn.fSort (.vList [.vInt 2, .vInt 1])
      (.vList [.vInt 1, .vInt 2]) rfl⟩

/-- C10 counterexample: a non-private top-level attribute whose value is a
module is skipped by the loop of `src/extra_symbols.py` (its
`inspect.ismodule` filter), so it is not registered even though no earlier
library claimed its key — the claim that every non-private top-level
attribute is registered unless its key was already claimed is false. -/
theorem c10_counterexample :
    underscoreFirst "sys" = false
    ∧ (⟨true, 0⟩ : PyAttr).isModule = true
    ∧ buildSymbols (fun a : PyAttr => a.isModule) [[("sys", ⟨true, 0⟩)]] = []
    ∧ (buildSymbols (fun a : PyAttr => a.isModule) [[("sys", ⟨true, 0⟩)]]).lookup "_sys" =
        none :=
  ⟨rfl, rfl, rfl, rfl⟩

/-- C10 amended: when the Symbol Table Builder processes the ordered list of
utility libraries, every non-private, non-module top-level attribute of each
library is registered in the default tier under its marker-prefixed name
unless a name with that key was already claimed by an earlier library; the
lookup of any key in the built table is exactly the first eligible attribute
(in library order, then attribute order) whose marker-prefixed name is that
key, so first-come priority holds for all libraries and names and later
libraries never override earlier ones. -/
theorem c10_first_come :
    (∀ (α : Type) (isMod : α → Bool) (libs : List (List (String × α))) (k : String),
        (buildSymbols isMod libs).lookup k =
          ((libs.flatten.filter (eligibleAttr isMod)).find?
              (fun p => ("_" ++ p.1) == k)).map (fun p => p.2))
    ∧ buildSymbols (fun a : PyAttr => a.isModule)
        [[("pi", ⟨false, 1⟩)], [("pi", ⟨false, 2⟩)]] = [("_pi", ⟨false, 1⟩)] :=
  ⟨fun _ isMod libs k => buildSymbols_lookup isMod libs k, rfl⟩

end Pyper
